import Mathlib

/-!
Verification of the MyUtils asynchronous network-service framework.

The definitions below are a shallow embedding, in Lean, of the C++ sources:

* `TCPSessionModel` — `src/tcp_service/tcp_session.{hpp,cpp}`: wire framing
  (4-byte big-endian length prefix + body, 10 MiB bound), the serialized
  write queue, `close()`, and the heartbeat / idle-timeout timers.
* `ConnectionPoolModel` — `src/config_mgr/config_manager.h`
  (`ConnectionPool<ConnectionType>`): the blocking resource pool.
* `ThreadPoolModel` — `src/thread_pool/thread_pool.{h,cpp}`: the fixed
  worker pool with one shared task queue.
* `IOServicePoolModel` — `src/memory_pool/memory_pool.h`
  (`IOServicePool`): round-robin distribution of io_contexts.

Stateful C++ code is modelled by explicit state passing: each member
function becomes a Lean function from the relevant state (the data members
it reads and writes) to the updated state, and asynchronous completion
handlers become functions from the handler arguments to an explicit action
datatype describing what the handler does next.  Machine integers are
modelled as `Nat` with explicit `% 2 ^ 32` where the C++ performs 32-bit
truncation.
-/

namespace TCPSessionModel

/-- Maximum message body size: `static constexpr size_t max_body_length =
10 * 1024 * 1024` in `tcp_session.hpp`. -/
def max_body_length : Nat := 10 * 1024 * 1024

/-- Heartbeat interval in seconds: `static constexpr std::chrono::seconds
heartbeat_interval{30}` in `tcp_session.hpp`. -/
def heartbeat_interval : Nat := 30

/-- Big-endian (network order) encoding of the low 32 bits of `n`, as
produced by `htonl(static_cast<uint32_t>(message.size()))` in
`TCPSession::do_write`. -/
def htonl (n : Nat) : List Nat :=
  [n / 2 ^ 24 % 256, n / 2 ^ 16 % 256, n / 2 ^ 8 % 256, n % 256]

/-- Decoding of 4 header bytes in network order, as performed by
`ntohl(*reinterpret_cast<uint32_t*>(header_.data()))` in
`TCPSession::do_read_header`. -/
def ntohl (b0 b1 b2 b3 : Nat) : Nat :=
  b0 * 2 ^ 24 + b1 * 2 ^ 16 + b2 * 2 ^ 8 + b3

/-- The byte stream `TCPSession::do_write` hands to `async_write` for one
message: the 4-byte big-endian length prefix followed by the body bytes.
The C++ casts `message.size()` to `uint32_t`, hence the `% 2 ^ 32`. -/
def encodeFrame (body : List Nat) : List Nat :=
  htonl (body.length % 2 ^ 32) ++ body

/-- What the read side does with an incoming byte stream, following
`do_read_header` then `do_read_body`: read exactly 4 header bytes, decode
the length with `ntohl`; if it exceeds `max_body_length` the session is
closed and no body read is issued (`none`); otherwise read exactly that
many body bytes and deliver them to the message handler, leaving the rest
of the stream for the next iteration of the read loop.  `none` also stands
for an incomplete stream, on which `async_read` would not complete. -/
def decodeFrame (stream : List Nat) : Option (List Nat × List Nat) :=
  match stream with
  | b0 :: b1 :: b2 :: b3 :: rest =>
    let body_length := ntohl b0 b1 b2 b3
    if body_length > max_body_length then
      none
    else if rest.length < body_length then
      none
    else
      some (rest.take body_length, rest.drop body_length)
  | _ => none

/-- Action taken by the completion handler of the header read in
`TCPSession::do_read_header` (tcp_session.cpp lines 110-141). -/
inductive HeaderAction where
  | handleError : HeaderAction
  | closeTooLarge : HeaderAction
  | readBody (length : Nat) : HeaderAction
deriving DecidableEq, Repr

/-- The completion handler of the 4-byte header read: on an error code it
routes to `handle_error`; otherwise it decodes the length, closes the
session when the length exceeds `max_body_length`, and otherwise issues
the body read via `do_read_body(body_length)`. -/
def onHeaderRead (ec : Bool) (b0 b1 b2 b3 : Nat) : HeaderAction :=
  if ec then
    HeaderAction.handleError
  else
    let body_length := ntohl b0 b1 b2 b3
    if body_length > max_body_length then
      HeaderAction.closeTooLarge
    else
      HeaderAction.readBody body_length

end TCPSessionModel

namespace TCPSessionModel

/-- C2: a header whose decoded big-endian length exceeds the 10 MiB bound
makes the session close at once: the handler takes the `closeTooLarge`
branch, so in particular it never issues `do_read_body` and the message
handler is never reached for that frame. -/
theorem oversized_header_closes_without_body_read
    (b0 b1 b2 b3 : Nat) (h : ntohl b0 b1 b2 b3 > max_body_length) :
    onHeaderRead false b0 b1 b2 b3 = HeaderAction.closeTooLarge ∧
    ∀ length, onHeaderRead false b0 b1 b2 b3 ≠ HeaderAction.readBody length := by
  refine ⟨?_, ?_⟩ <;> simp [onHeaderRead, h]

/-- C2 witness: the spec's own end-to-end example, a declared length of
20000000 bytes (header bytes 01 31 2D 00), exceeds the bound and closes. -/
theorem oversized_header_closes_without_body_read_witness :
    ntohl 1 49 45 0 > max_body_length ∧
    onHeaderRead false 1 49 45 0 = HeaderAction.closeTooLarge :=
  ⟨by decide, (oversized_header_closes_without_body_read 1 49 45 0 (by decide)).1⟩

theorem ntohl_htonl (n : Nat) (hn : n < 2 ^ 32) :
    ntohl (n / 2 ^ 24 % 256) (n / 2 ^ 16 % 256) (n / 2 ^ 8 % 256) (n % 256) = n := by
  unfold ntohl
  omega

/-- C3: framing round-trip.  Encoding a body of at most `max_body_length`
bytes as a frame and feeding that frame to the read side delivers exactly
the original body to the message handler, consuming the whole frame. -/
theorem frame_round_trip (body : List Nat) (h : body.length ≤ max_body_length) :
    decodeFrame (encodeFrame body) = some (body, []) := by
  have hlt : body.length < 2 ^ 32 := by
    have : max_body_length < 2 ^ 32 := by decide
    omega
  have hmod : body.length % 2 ^ 32 = body.length := Nat.mod_eq_of_lt hlt
  have henc : encodeFrame body =
      body.length / 2 ^ 24 % 256 :: body.length / 2 ^ 16 % 256 ::
        body.length / 2 ^ 8 % 256 :: body.length % 256 :: body := by
    simp [encodeFrame, htonl]
    omega
  rw [henc]
  simp only [decodeFrame]
  rw [ntohl_htonl body.length hlt]
  have hnot : ¬ body.length > max_body_length := Nat.not_lt.mpr h
  simp [hnot]

/-- C3 witness: the 5-byte body "hello" round-trips through the frame
encoding. -/
theorem frame_round_trip_witness :
    [104, 101, 108, 108, 111].length ≤ max_body_length ∧
    decodeFrame (encodeFrame [104, 101, 108, 108, 111]) =
      some ([104, 101, 108, 108, 111], []) :=
  ⟨by decide, frame_round_trip [104, 101, 108, 108, 111] (by decide)⟩

end TCPSessionModel

namespace TCPSessionModel

/-- State of the serialized write path of one session: the outbound
`write_queue_` (`std::deque<std::string>`), the messages whose
`async_write` has completed in the order they were written to the socket,
and the number of `async_write` operations currently in flight.  All
mutation happens on the session's own execution context, so the sequential
event semantics below is faithful. -/
structure WriteState where
  write_queue : List String
  wire : List String
  outstanding : Nat
deriving DecidableEq, Repr

/-- Events that drive the write path: a call to `TCPSession::send` posted
onto the session's executor, or the completion handler of the current
`async_write` running without error. -/
inductive WriteEvent where
  | send (message : String)
  | writeDone
deriving DecidableEq, Repr

/-- The body of the lambda posted by `TCPSession::send`: record whether a
write is in progress (queue non-empty), push the message, and start
`do_write` only when no write was in progress.  Starting `do_write` issues
one `async_write` of the queue front, counted in `outstanding`. -/
def sendStep (s : WriteState) (message : String) : WriteState :=
  let write_in_progress := !s.write_queue.isEmpty
  let q := s.write_queue ++ [message]
  if write_in_progress then
    { s with write_queue := q }
  else
    { s with write_queue := q, outstanding := s.outstanding + 1 }

/-- The completion handler in `TCPSession::do_write`: the front message has
been fully written, so it is appended to `wire`, popped from the queue,
and a new `async_write` is started iff the queue is still non-empty. -/
def writeDoneStep (s : WriteState) : WriteState :=
  match s.write_queue with
  | [] => s
  | message :: rest =>
    { write_queue := rest,
      wire := s.wire ++ [message],
      outstanding := s.outstanding - 1 + (if rest.isEmpty then 0 else 1) }

def writeStep (s : WriteState) : WriteEvent → WriteState
  | WriteEvent.send m => sendStep s m
  | WriteEvent.writeDone => writeDoneStep s

/-- A freshly started session: empty queue, nothing on the wire, no write
in flight. -/
def initWriteState : WriteState := ⟨[], [], 0⟩

def runWrites (s : WriteState) (events : List WriteEvent) : WriteState :=
  events.foldl writeStep s

/-- The messages passed to `send`, in call order. -/
def sentMessages (events : List WriteEvent) : List String :=
  events.filterMap fun e =>
    match e with
    | WriteEvent.send m => some m
    | WriteEvent.writeDone => none

theorem writeStep_preserves (s : WriteState) (e : WriteEvent)
    (h : s.outstanding = if s.write_queue.isEmpty then 0 else 1) :
    ((writeStep s e).outstanding =
      if (writeStep s e).write_queue.isEmpty then 0 else 1) ∧
    (writeStep s e).wire ++ (writeStep s e).write_queue =
      s.wire ++ s.write_queue ++ sentMessages [e] := by
  cases e with
  | send m =>
    cases hq : s.write_queue with
    | nil => simp_all [writeStep, sendStep, sentMessages]
    | cons a l => simp_all [writeStep, sendStep, sentMessages]
  | writeDone =>
    cases hq : s.write_queue with
    | nil => simp_all [writeStep, writeDoneStep, sentMessages]
    | cons a l =>
      cases hl : l with
      | nil => simp_all [writeStep, writeDoneStep, sentMessages]
      | cons b l2 => simp_all [writeStep, writeDoneStep, sentMessages]

theorem runWrites_preserves (events : List WriteEvent) (s : WriteState)
    (h : s.outstanding = if s.write_queue.isEmpty then 0 else 1) :
    ((runWrites s events).outstanding =
      if (runWrites s events).write_queue.isEmpty then 0 else 1) ∧
    (runWrites s events).wire ++ (runWrites s events).write_queue =
      s.wire ++ s.write_queue ++ sentMessages events := by
  induction events generalizing s with
  | nil => simpa [runWrites, sentMessages] using h
  | cons e es ih =>
    have hstep := writeStep_preserves s e h
    have hrec := ih (writeStep s e) hstep.1
    refine ⟨?_, ?_⟩
    · simpa [runWrites] using hrec.1
    · have : sentMessages (e :: es) = sentMessages [e] ++ sentMessages es := by
        cases e <;> simp [sentMessages]
      rw [show runWrites s (e :: es) = runWrites (writeStep s e) es from rfl]
      rw [hrec.2, hstep.2, this, List.append_assoc]

/-- C4: starting from a fresh session and running any sequence of `send`
calls and write completions, the messages written to the socket (`wire`)
followed by the still-queued messages equal the `send` calls in call order
(strict FIFO: the wire order is the call order), and at every reachable
state at most one `async_write` is outstanding — exactly one iff the queue
is non-empty, because a new write starts only when none is in flight and a
completion starts the next write iff the queue is non-empty. -/
theorem send_fifo_single_outstanding_write (events : List WriteEvent) :
    (runWrites initWriteState events).wire ++
        (runWrites initWriteState events).write_queue = sentMessages events ∧
    (runWrites initWriteState events).outstanding ≤ 1 ∧
    (runWrites initWriteState events).outstanding =
      if (runWrites initWriteState events).write_queue.isEmpty then 0 else 1 := by
  have h := runWrites_preserves events initWriteState (by simp [initWriteState])
  refine ⟨by simpa [initWriteState] using h.2, ?_, h.1⟩
  rw [h.1]
  split <;> omega

end TCPSessionModel

namespace TCPSessionModel

/-- Session state read and written by `TCPSession::close`
(tcp_session.cpp lines 49-66): whether the socket is open, whether each
timer is pending, and how many times the registered close callback has
been invoked. -/
structure CloseState where
  socket_open : Bool
  heartbeat_timer_pending : Bool
  read_timeout_timer_pending : Bool
  close_callback_calls : Nat
deriving DecidableEq, Repr

/-- `TCPSession::close`: everything is guarded by `socket_.is_open()`.
When the socket is open it is shut down and closed (so `is_open` becomes
false), both timers are cancelled, and the close callback is invoked;
when the socket is already closed the call does nothing. -/
def close (s : CloseState) : CloseState :=
  if s.socket_open then
    { socket_open := false,
      heartbeat_timer_pending := false,
      read_timeout_timer_pending := false,
      close_callback_calls := s.close_callback_calls + 1 }
  else
    s

/-- The three call sites that reach `close()`: an external caller,
`TCPSession::handle_error` (any read/write error), and the idle
read-timeout handler in `TCPSession::reset_read_timeout`. -/
inductive ClosePath where
  | external
  | errorPath
  | idleTimeout
deriving DecidableEq, Repr

/-- Each path falls through to the same `close()` member function after
its own logging. -/
def closeVia (s : CloseState) : ClosePath → CloseState
  | ClosePath.external => close s
  | ClosePath.errorPath => close s
  | ClosePath.idleTimeout => close s

/-- A session in the `Established` state: socket open, both timers armed,
close callback not yet invoked. -/
def establishedSession : CloseState :=
  { socket_open := true,
    heartbeat_timer_pending := true,
    read_timeout_timer_pending := true,
    close_callback_calls := 0 }

def runCloses (s : CloseState) (paths : List ClosePath) : CloseState :=
  paths.foldl closeVia s

theorem closeVia_of_closed (s : CloseState) (h : s.socket_open = false)
    (p : ClosePath) : closeVia s p = s := by
  cases p <;> simp [closeVia, close, h]

theorem runCloses_of_closed (paths : List ClosePath) (s : CloseState)
    (h : s.socket_open = false) : runCloses s paths = s := by
  induction paths with
  | nil => rfl
  | cons p ps ih =>
    rw [show runCloses s (p :: ps) = runCloses (closeVia s p) ps from rfl,
        closeVia_of_closed s h p, ih]

/-- C5: `close()` is idempotent (a second call is a no-op), and over a
session's lifetime — any non-empty sequence of close requests arriving
through the error path, the idle-timer path, or an external caller — the
registered close callback is invoked exactly once. -/
theorem close_idempotent_and_callback_exactly_once :
    (∀ s : CloseState, close (close s) = close s) ∧
    (∀ paths : List ClosePath,
      (runCloses establishedSession paths).close_callback_calls =
        if paths.isEmpty then 0 else 1) := by
  constructor
  · intro s
    by_cases h : s.socket_open = true
    · simp [close, h]
    · have h0 : s.socket_open = false := by
        cases hs : s.socket_open
        · rfl
        · exact absurd hs h
      simp [close, h0]
  · intro paths
    cases paths with
    | nil => rfl
    | cons p ps =>
      have hstep : closeVia establishedSession p =
          { socket_open := false,
            heartbeat_timer_pending := false,
            read_timeout_timer_pending := false,
            close_callback_calls := 1 } := by
        cases p <;> rfl
      rw [show runCloses establishedSession (p :: ps) =
            runCloses (closeVia establishedSession p) ps from rfl, hstep,
          runCloses_of_closed ps _ rfl]
      rfl

/-- The reserved keepalive body sent by `TCPSession::start_heartbeat`:
the literal `"HEARTBEAT"`. -/
def heartbeatBody : String := "HEARTBEAT"

/-- What the heartbeat timer's completion handler does. -/
inductive HeartbeatAction where
  | noAction
  | sendAndRearm (message : String)
deriving DecidableEq, Repr

/-- The completion handler installed by `TCPSession::start_heartbeat`
(tcp_session.cpp lines 80-95): if the timer was cancelled (`ec`) it
returns; if the socket is no longer open it returns; otherwise it sends
`"HEARTBEAT"` through the ordinary `send` path and re-arms the timer by
calling `start_heartbeat()` again. -/
def onHeartbeatTimer (ec : Bool) (socket_open : Bool) : HeartbeatAction :=
  if ec then
    HeartbeatAction.noAction
  else if !socket_open then
    HeartbeatAction.noAction
  else
    HeartbeatAction.sendAndRearm heartbeatBody

/-- C10: the keepalive body is exactly the 9-byte string `"HEARTBEAT"`;
with the socket open, each timer expiry sends that literal through the
normal send path and re-arms the (30-second) timer, and once the socket is
closed — or the timer was cancelled — the handler does nothing. -/
theorem heartbeat_sends_literal_and_rearms :
    heartbeatBody = "HEARTBEAT" ∧
    heartbeatBody.length = 9 ∧
    heartbeat_interval = 30 ∧
    (∀ so : Bool, onHeartbeatTimer false so =
      if so then HeartbeatAction.sendAndRearm "HEARTBEAT"
      else HeartbeatAction.noAction) ∧
    (∀ so : Bool, onHeartbeatTimer true so = HeartbeatAction.noAction) := by
  refine ⟨rfl, rfl, rfl, ?_, ?_⟩ <;> intro so <;> cases so <;> rfl

end TCPSessionModel

namespace ConnectionPoolModel

/-- State of `ConnectionPool<ConnectionType>` (config_manager.h): the
`_stop` flag, the configured `_poolSize`, and the `_connections` free
queue (front of the `std::queue` at the head of the list).  Connections
are identified by natural numbers; a `ConnectionPtr` that may be null is
an `Option Nat`. -/
structure PoolState where
  stop : Bool
  poolSize : Nat
  connections : List Nat
deriving DecidableEq, Repr

/-- `ConnectionPool::Initialize(poolSize, factory)` called on a fresh
pool: it stores the size and factory, clears `_stop`, and pushes the
result of `factory()` for each of the `poolSize` iterations, skipping
null results.  The factory is modelled as a function from the creation
index to the (possibly null) connection it returns. -/
def Initialize (poolSize : Nat) (factory : Nat → Option Nat) : PoolState :=
  { stop := false,
    poolSize := poolSize,
    connections := (List.range poolSize).filterMap factory }

/-- Result of one `GetConnection()` call.  `blocked` records that the
`_condition.wait(lock, [this]{ return _stop || !_connections.empty(); })`
does not return: with the pool not stopped and the queue empty the
predicate is false, so the caller stays blocked on the condition
variable. -/
inductive AcquireResult where
  | blocked
  | nullConn
  | conn (c : Nat)
deriving DecidableEq, Repr

/-- `ConnectionPool::GetConnection` (config_manager.h lines 163-189).
The condition wait returns only once `_stop || !_connections.empty()`
holds under the lock; `_stop` is only ever written under the same mutex,
so the post-wait code runs in a state satisfying that predicate.  After
the wait: a stopped pool yields `nullptr`; an empty queue would fall back
to `_factory()` (modelled by `factoryNext`, the value the next factory
call would produce); otherwise the front connection is popped and
returned. -/
def GetConnection (s : PoolState) (factoryNext : Option Nat) :
    AcquireResult × PoolState :=
  if ¬(s.stop = true ∨ s.connections ≠ []) then
    (AcquireResult.blocked, s)
  else if s.stop then
    (AcquireResult.nullConn, s)
  else
    match s.connections with
    | [] =>
      match factoryNext with
      | some c => (AcquireResult.conn c, s)
      | none => (AcquireResult.nullConn, s)
    | c :: rest => (AcquireResult.conn c, { s with connections := rest })

/-- `ConnectionPool::ReturnConnection` (config_manager.h lines 191-213):
null connections are ignored; on a stopped pool the connection is
dropped; when the queue already holds `_poolSize` connections the
connection is discarded; otherwise it is pushed onto the free queue. -/
def ReturnConnection (s : PoolState) (connection : Option Nat) : PoolState :=
  match connection with
  | none => s
  | some c =>
    if s.stop then
      s
    else if s.poolSize ≤ s.connections.length then
      s
    else
      { s with connections := s.connections ++ [c] }

/-- `ConnectionPool::Close`: sets `_stop` and drains the free queue. -/
def Close (s : PoolState) : PoolState :=
  { s with stop := true, connections := [] }

/-- Operations a client can perform on an initialized pool. -/
inductive PoolOp where
  | get (factoryNext : Option Nat)
  | ret (connection : Option Nat)
  | close
deriving DecidableEq, Repr

def poolStep (s : PoolState) : PoolOp → PoolState
  | PoolOp.get f => (GetConnection s f).2
  | PoolOp.ret c => ReturnConnection s c
  | PoolOp.close => Close s

def runPool (s : PoolState) (ops : List PoolOp) : PoolState :=
  ops.foldl poolStep s

/-- C1 counterexample: on a pool of capacity 2 whose free queue is empty
and which is not stopped, with the factory ready to produce connection
42, `GetConnection` does not call the factory and does not return a
fresh transient resource — the condition wait leaves the caller blocked,
because its predicate `_stop || !_connections.empty()` is false. -/
theorem acquire_on_empty_blocks_counterexample :
    (GetConnection { stop := false, poolSize := 2, connections := [] }
        (some 42)).1 = AcquireResult.blocked ∧
    (GetConnection { stop := false, poolSize := 2, connections := [] }
        (some 42)).1 ≠ AcquireResult.conn 42 := by
  decide

/-- C1 amended: whenever the free queue is empty and the pool is not
stopped, `GetConnection` blocks on the condition variable instead of
calling the factory; the beyond-capacity factory fallback inside
`GetConnection` is unreachable, because the condition wait only returns
when the pool is stopped or the queue is non-empty and `_stop` is only
written under the same mutex. -/
theorem acquire_on_empty_pool_blocks (s : PoolState) (factoryNext : Option Nat)
    (hstop : s.stop = false) (hempty : s.connections = []) :
    GetConnection s factoryNext = (AcquireResult.blocked, s) := by
  simp [GetConnection, hstop, hempty]

/-- C1 amended witness: the concrete empty, running pool of capacity 2
indeed blocks. -/
theorem acquire_on_empty_pool_blocks_witness :
    GetConnection { stop := false, poolSize := 2, connections := [] }
        (some 42) =
      (AcquireResult.blocked,
        { stop := false, poolSize := 2, connections := [] }) :=
  acquire_on_empty_pool_blocks _ (some 42) rfl rfl

theorem poolStep_preserves (s : PoolState) (op : PoolOp)
    (h : s.connections.length ≤ s.poolSize) :
    (poolStep s op).connections.length ≤ (poolStep s op).poolSize ∧
    (poolStep s op).poolSize = s.poolSize := by
  cases op with
  | get f =>
    cases hs : s.stop with
    | true =>
      have hid : poolStep s (PoolOp.get f) = s := by
        simp [poolStep, GetConnection, hs]
      rw [hid]
      exact ⟨h, rfl⟩
    | false =>
      cases hc : s.connections with
      | nil => simp [poolStep, GetConnection, hs, hc]
      | cons c rest =>
        rw [hc] at h
        simp only [List.length_cons] at h
        constructor
        · simp [poolStep, GetConnection, hs, hc]
          omega
        · simp [poolStep, GetConnection, hs, hc]
  | ret c =>
    cases c with
    | none => exact ⟨h, rfl⟩
    | some c =>
      by_cases hs : s.stop = true
      · simp [poolStep, ReturnConnection, hs, h]
      · by_cases hfull : s.poolSize ≤ s.connections.length
        · simp [poolStep, ReturnConnection, hs, hfull, h]
        · constructor
          · simp [poolStep, ReturnConnection, hs, hfull]
            omega
          · simp [poolStep, ReturnConnection, hs, hfull]
  | close => simp [poolStep, Close]

/-- C8: a pool initialized with capacity C maintains, across every
sequence of `GetConnection` / `ReturnConnection` / `Close` calls, that
the free queue holds at most C connections: `Initialize` seeds at most C
(the factory may return null), and `ReturnConnection` pushes only while
the queue is below C. -/
theorem free_queue_never_exceeds_capacity (capacity : Nat)
    (factory : Nat → Option Nat) (ops : List PoolOp) :
    (runPool (Initialize capacity factory) ops).connections.length ≤ capacity := by
  have hinit : (Initialize capacity factory).connections.length ≤ capacity := by
    calc ((List.range capacity).filterMap factory).length
        ≤ (List.range capacity).length := List.length_filterMap_le _ _
      _ = capacity := List.length_range capacity
  have hsize : (Initialize capacity factory).poolSize = capacity := rfl
  suffices hgen : ∀ (ops : List PoolOp) (s : PoolState),
      s.connections.length ≤ s.poolSize →
      (runPool s ops).connections.length ≤ (runPool s ops).poolSize ∧
      (runPool s ops).poolSize = s.poolSize by
    have h := hgen ops (Initialize capacity factory) (by rw [hsize]; exact hinit)
    rw [hsize] at h
    omega
  intro ops
  induction ops with
  | nil => exact fun s h => ⟨h, rfl⟩
  | cons op rest ih =>
    intro s h
    have hstep := poolStep_preserves s op h
    have hrec := ih (poolStep s op) hstep.1
    refine ⟨hrec.1, ?_⟩
    rw [show runPool s (op :: rest) = runPool (poolStep s op) rest from rfl,
        hrec.2, hstep.2]

end ConnectionPoolModel

namespace ThreadPoolModel

/-- State of `ThreadPool` (thread_pool.h): the `_stop` flag, the shared
`_tasks` queue (front at the head), and the `_taskCount` counter.  Tasks
are identified by natural numbers. -/
structure ThreadPoolState where
  stop : Bool
  tasks : List Nat
  taskCount : Nat
deriving DecidableEq, Repr

/-- The enqueue section of `ThreadPool::Enqueue` (thread_pool.h lines
104-123): under `_queueMutex`, if `_stop` is set it throws
`std::runtime_error("ThreadPool is shutdown")`, leaving the queue
untouched; otherwise the packaged task is pushed and `_taskCount`
incremented. -/
def Enqueue (s : ThreadPoolState) (task : Nat) : Except String ThreadPoolState :=
  if s.stop then
    Except.error "ThreadPool is shutdown"
  else
    Except.ok { s with tasks := s.tasks ++ [task], taskCount := s.taskCount + 1 }

/-- C6: every `Enqueue` call after `Shutdown()` has set `_stop` fails with
the explicit "ThreadPool is shutdown" rejection; no successful state
results, so the task is never placed on the queue and never executed. -/
theorem enqueue_after_shutdown_rejected (s : ThreadPoolState) (task : Nat)
    (h : s.stop = true) :
    Enqueue s task = Except.error "ThreadPool is shutdown" ∧
    ∀ s2 : ThreadPoolState, Enqueue s task ≠ Except.ok s2 := by
  refine ⟨by simp [Enqueue, h], fun s2 => by simp [Enqueue, h]⟩

/-- C6 witness: a concrete stopped pool rejects task 7. -/
theorem enqueue_after_shutdown_rejected_witness :
    ({ stop := true, tasks := [], taskCount := 0 } : ThreadPoolState).stop = true ∧
    Enqueue { stop := true, tasks := [], taskCount := 0 } 7 =
      Except.error "ThreadPool is shutdown" :=
  ⟨rfl, (enqueue_after_shutdown_rejected { stop := true, tasks := [], taskCount := 0 } 7 rfl).1⟩

/-- State seen by one worker in `ThreadPool::WorkerThread`
(thread_pool.cpp lines 47-78), plus the list of tasks it has executed, in
execution order. -/
structure WorkerState where
  stop : Bool
  tasks : List Nat
  executed : List Nat
deriving DecidableEq, Repr

/-- One iteration of the worker loop: the condition wait returns when
`_stop || !_tasks.empty()`; then `if (_stop && _tasks.empty()) return;`
(`none` — the thread exits); otherwise the front task, when present, is
popped and executed (exceptions are caught, so execution always
completes the iteration).  When the pool is running and the queue is
empty the worker merely keeps waiting. -/
def workerStep (s : WorkerState) : Option WorkerState :=
  if s.stop = true ∧ s.tasks = [] then
    none
  else
    match s.tasks with
    | [] => some s
    | t :: rest => some { s with tasks := rest, executed := s.executed ++ [t] }

/-- The drain performed between `Shutdown()` setting `_stop` and the
`join` returning: with `_stop` set, each worker iteration pops and runs
one task until the queue is empty, then the worker exits.  Returns the
executed tasks appended to the accumulator in execution order. -/
def drainTasks : List Nat → List Nat → List Nat
  | [], executed => executed
  | t :: rest, executed => drainTasks rest (executed ++ [t])

theorem drainTasks_eq_append (tasks : List Nat) :
    ∀ executed : List Nat, drainTasks tasks executed = executed ++ tasks := by
  induction tasks with
  | nil => intro executed; simp [drainTasks]
  | cons t rest ih =>
    intro executed
    rw [show drainTasks (t :: rest) executed = drainTasks rest (executed ++ [t]) from rfl,
        ih (executed ++ [t])]
    simp

/-- C7: a worker exits iff the stop flag is set and the queue is empty, so
after `Shutdown()` sets `_stop` (and before `join` returns) the workers
drain the whole queue: every task enqueued before shutdown is executed,
in order, exactly once — the executed list is exactly the submitted
queue, and each task occurs in it exactly as often as it was
submitted. -/
theorem tasks_before_shutdown_execute_exactly_once :
    (∀ s : WorkerState, workerStep s = none ↔ s.stop = true ∧ s.tasks = []) ∧
    (∀ tasks : List Nat, drainTasks tasks [] = tasks) ∧
    (∀ (tasks : List Nat) (t : Nat),
      (drainTasks tasks []).count t = tasks.count t) := by
  refine ⟨?_, ?_, ?_⟩
  · intro s
    constructor
    · intro h
      by_contra hc
      rw [workerStep, if_neg hc] at h
      cases htasks : s.tasks with
      | nil => rw [htasks] at h; exact Option.noConfusion h
      | cons t rest => rw [htasks] at h; exact Option.noConfusion h
    · intro h
      rw [workerStep, if_pos h]
  · intro tasks
    rw [drainTasks_eq_append tasks []]
    simp
  · intro tasks t
    rw [drainTasks_eq_append tasks []]
    simp

end ThreadPoolModel

namespace IOServicePoolModel

/-- State of `IOServicePool` (memory_pool.h / IOService_pool): the number
of io_contexts created by the constructor and the round-robin cursor
`next_io_service_`.  An io_context is identified by its index in
`io_services_`. -/
structure IOPoolState where
  poolSize : Nat
  cursor : Nat
deriving DecidableEq, Repr

/-- `IOServicePool::GetIOService`: returns
`*io_services_[next_io_service_]`, then increments `next_io_service_`
and wraps it to 0 when it reaches `io_services_.size()`. -/
def GetIOService (s : IOPoolState) : Nat × IOPoolState :=
  let idx := s.cursor
  let bumped := s.cursor + 1
  (idx, { s with cursor := if s.poolSize ≤ bumped then 0 else bumped })

/-- The indices returned by `n` successive `GetIOService` calls. -/
def acquireSeq (s : IOPoolState) : Nat → List Nat
  | 0 => []
  | n + 1 =>
    let r := GetIOService s
    r.1 :: acquireSeq r.2 n

theorem getIOService_eq (sz i : Nat) (hi : i < sz) :
    GetIOService ⟨sz, i⟩ = (i, ⟨sz, (i + 1) % sz⟩) := by
  unfold GetIOService
  by_cases h : sz ≤ i + 1
  · have : i + 1 = sz := by omega
    simp [h, this]
  · have : (i + 1) % sz = i + 1 := Nat.mod_eq_of_lt (by omega)
    simp [h, this]

theorem acquireSeq_eq_map (n : Nat) : ∀ sz i : Nat, i < sz →
    acquireSeq ⟨sz, i⟩ n = (List.range n).map (fun k => (i + k) % sz) := by
  induction n with
  | zero => intro sz i _; rfl
  | succ n ih =>
    intro sz i hi
    have hz : 0 < sz := by omega
    have hnext : (i + 1) % sz < sz := Nat.mod_lt _ hz
    rw [show acquireSeq ⟨sz, i⟩ (n + 1) =
          (GetIOService ⟨sz, i⟩).1 ::
            acquireSeq (GetIOService ⟨sz, i⟩).2 n from rfl,
        getIOService_eq sz i hi]
    rw [show ((i, (⟨sz, (i + 1) % sz⟩ : IOPoolState)).1 :
          Nat) = i from rfl]
    rw [show ((i, (⟨sz, (i + 1) % sz⟩ : IOPoolState)).2 :
          IOPoolState) = ⟨sz, (i + 1) % sz⟩ from rfl]
    rw [ih sz ((i + 1) % sz) hnext, List.range_succ_eq_map, List.map_cons,
        List.map_map]
    have h0 : (i + 0) % sz = i := by
      rw [Nat.add_zero]
      exact Nat.mod_eq_of_lt hi
    rw [h0]
    refine congrArg (List.cons i) ?_
    apply List.map_congr_left
    intro k _
    show ((i + 1) % sz + k) % sz = (i + Nat.succ k) % sz
    rw [Nat.mod_add_mod]
    congr 1
    omega

theorem map_mod_rotation_perm (sz i : Nat) (hi : i < sz) :
    ((List.range sz).map (fun k => (i + k) % sz)).Perm (List.range sz) := by
  have hsplit : List.range sz =
      List.range (sz - i) ++ (List.range i).map (fun k => (sz - i) + k) := by
    conv_lhs => rw [show sz = (sz - i) + i from by omega]
    rw [List.range_add]
  have hfirst : (List.range (sz - i)).map (fun k => (i + k) % sz) =
      (List.range (sz - i)).map (fun k => i + k) := by
    apply List.map_congr_left
    intro k hk
    rw [List.mem_range] at hk
    exact Nat.mod_eq_of_lt (by omega)
  have hsecond : ((List.range i).map (fun k => (sz - i) + k)).map
      (fun k => (i + k) % sz) = List.range i := by
    rw [List.map_map]
    have : ∀ k ∈ List.range i, ((fun k => (i + k) % sz) ∘
        (fun k => (sz - i) + k)) k = k := by
      intro k hk
      rw [List.mem_range] at hk
      show (i + ((sz - i) + k)) % sz = k
      have harg : i + ((sz - i) + k) = sz + k := by omega
      rw [harg, Nat.add_mod_left]
      exact Nat.mod_eq_of_lt (by omega)
    calc ((List.range i).map ((fun k => (i + k) % sz) ∘ (fun k => (sz - i) + k)))
        = (List.range i).map id := List.map_congr_left this
      _ = List.range i := List.map_id _
  have heq : (List.range sz).map (fun k => (i + k) % sz) =
      (List.range (sz - i)).map (fun k => i + k) ++ List.range i := by
    rw [hsplit, List.map_append, hfirst, hsecond]
  have hsplit2 : List.range sz =
      List.range i ++ (List.range (sz - i)).map (fun k => i + k) := by
    conv_lhs => rw [show sz = i + (sz - i) from by omega]
    rw [List.range_add]
  rw [heq, hsplit2]
  exact List.perm_append_comm

theorem count_range_window (sz i j : Nat) (hi : i < sz) (hj : j < sz) :
    ((List.range sz).map (fun k => (i + k) % sz)).count j = 1 := by
  rw [List.Perm.count_eq (map_mod_rotation_perm sz i hi)]
  exact List.count_eq_one_of_mem (List.nodup_range sz) (List.mem_range.mpr hj)

/-- C9: round-robin distribution of `GetIOService`.  Starting from the
freshly constructed pool (cursor 0) of `sz` contexts, the `k`-th call
returns context `k % sz`; and from any reachable cursor, `2 * sz`
consecutive calls return every context exactly twice. -/
theorem round_robin_distribution (sz : Nat) (hsz : 0 < sz) :
    (∀ n k : Nat, k < n →
      (acquireSeq ⟨sz, 0⟩ n)[k]? = some (k % sz)) ∧
    (∀ i j : Nat, i < sz → j < sz →
      (acquireSeq ⟨sz, i⟩ (2 * sz)).count j = 2) := by
  constructor
  · intro n k hk
    rw [acquireSeq_eq_map n sz 0 hsz]
    simp [List.getElem?_map, List.getElem?_range, hk]
  · intro i j hi hj
    rw [acquireSeq_eq_map (2 * sz) sz i hi]
    have h2 : 2 * sz = sz + sz := by omega
    rw [h2, List.range_add, List.map_append, List.count_append]
    have hsecond : ((List.range sz).map (fun k => sz + k)).map
        (fun k => (i + k) % sz) = (List.range sz).map (fun k => (i + k) % sz) := by
      rw [List.map_map]
      apply List.map_congr_left
      intro k _
      show (i + (sz + k)) % sz = (i + k) % sz
      have harg : i + (sz + k) = sz + (i + k) := by omega
      rw [harg, Nat.add_mod_left]
    rw [hsecond, count_range_window sz i j hi hj]

/-- C9 witness: on a 2-context pool, call 3 (0-based) returns context
1 = 3 % 2, and 4 consecutive calls return context 1 exactly twice. -/
theorem round_robin_distribution_witness :
    0 < 2 ∧
    (acquireSeq ⟨2, 0⟩ 5)[3]? = some 1 ∧
    (acquireSeq ⟨2, 0⟩ 4).count 1 = 2 :=
  ⟨by decide,
   by
     have h := (round_robin_distribution 2 (by decide)).1 5 3 (by decide)
     simpa using h,
   (round_robin_distribution 2 (by decide)).2 0 1 (by decide) (by decide)⟩

end IOServicePoolModel
